import Mathlib

/-!
Verification of the aquaguard network-map rendering core against its
natural-language specification.

The definitions below are a shallow embedding of the JavaScript source:

* the canvas `NetworkMap` component (its `getBounds`, `toCanvas`, the hover
  hit-test inside `handleMouseMove`, the pan/zoom/reset handlers, and the
  pipe/node drawing loops);
* the sandbox page's `buildFigData` draw-list builder (pipes, nodes, sensors,
  leak markers, heatmap points, prediction markers, error-indicator lines);
* the per-point heatmap visual encodings.

JavaScript floating-point numbers are embedded as exact rationals.  The
hit-test compares Euclidean pixel distances; since the square function is
strictly monotone on nonnegative reals, the embedding compares squared
distances against the squared threshold (400 = 20 squared), which decides
exactly the same comparisons as the source's Math.hypot against 20.
-/

/-- Viewport transform state: screen-space offset (x, y) and zoom scale.
Mirrors the component state value with default 0, 0, 1. -/
structure Transform where
  x : ℚ
  y : ℚ
  scale : ℚ
  deriving DecidableEq

/-- Padded world-space bounding box, as returned by getBounds. -/
structure Bounds where
  minX : ℚ
  maxX : ℚ
  minY : ℚ
  maxY : ℚ
  deriving DecidableEq

/-- A network node as consumed by the canvas NetworkMap:
id, world coordinates, kind string, elevation. -/
structure Node where
  id : String
  x : ℚ
  y : ℚ
  type : String
  elevation : ℚ
  deriving DecidableEq

/-- A network edge referencing its endpoint nodes by id. -/
structure Edge where
  start_node : String
  end_node : String
  deriving DecidableEq

/-- The network payload consumed by the canvas NetworkMap. -/
structure Network where
  nodes : List Node
  edges : List Edge
  deriving DecidableEq

/-- Bounds calculator of the canvas NetworkMap.  The source folds min/max
over all node coordinates starting from plus/minus Infinity; for a nonempty
list that is the fold below starting from the first node.  Each axis is
padded by 8 percent of its span, with the JavaScript idiom
(span times 0.08 or-else 1) yielding 1 exactly when the product is 0.
An empty node list yields the unit box. -/
def getBounds (nodes : List Node) : Bounds :=
  match nodes with
  | [] => ⟨0, 1, 0, 1⟩
  | n :: rest =>
    let minX := rest.foldl (fun a q => min a q.x) n.x
    let maxX := rest.foldl (fun a q => max a q.x) n.x
    let minY := rest.foldl (fun a q => min a q.y) n.y
    let maxY := rest.foldl (fun a q => max a q.y) n.y
    let padX := if (maxX - minX) * (2 / 25) = 0 then 1 else (maxX - minX) * (2 / 25)
    let padY := if (maxY - minY) * (2 / 25) = 0 then 1 else (maxY - minY) * (2 / 25)
    ⟨minX - padX, maxX + padX, minY - padY, maxY + padY⟩

/-- World-to-screen projection of the canvas NetworkMap (source name
toCanvas): uniform scale min(width over spanX, height over spanY)
times 0.85, bounds midpoint centered on the viewport center, transform
scale as an extra zoom factor, transform offset as a pixel translation,
Y axis flipped. -/
def toCanvas (wx wy : ℚ) (b : Bounds) (width height : ℚ) (tf : Transform) : ℚ × ℚ :=
  let scaleX := width / (b.maxX - b.minX)
  let scaleY := height / (b.maxY - b.minY)
  let s := min scaleX scaleY * (17 / 20)
  let cx := width / 2
  let cy := height / 2
  let mx := (b.minX + b.maxX) / 2
  let my := (b.minY + b.maxY) / 2
  ((wx - mx) * s * tf.scale + cx + tf.x, -(wy - my) * s * tf.scale + cy + tf.y)

/-- Node lookup map.  The source builds a JavaScript object keyed by node id
(later entries overwrite earlier ones), embedded here as a left fold. -/
def nodeMap (nodes : List Node) (key : String) : Option Node :=
  nodes.foldl (fun acc n => if n.id = key then some n else acc) none

/-- Squared Euclidean distance between two screen points (the source uses
Math.hypot; comparisons of hypot values against 20 coincide with
comparisons of this value against 400). -/
def distSq (p m : ℚ × ℚ) : ℚ :=
  (p.1 - m.1) ^ 2 + (p.2 - m.2) ^ 2

/-- Squared screen distance from the pointer to a node's projection. -/
def nodeDistSq (b : Bounds) (w h : ℚ) (tf : Transform) (m : ℚ × ℚ) (n : Node) : ℚ :=
  distSq (toCanvas n.x n.y b w h tf) m

/-- Core loop of the hover hit-test: scans the node list keeping the closest
node seen so far, starting from the threshold as the distance to beat.
A node replaces the incumbent only when strictly closer. -/
def hitLoop (d : Node → ℚ) : List Node → Option String → ℚ → Option String × ℚ
  | [], c, m => (c, m)
  | n :: rest, c, m =>
    if d n < m then hitLoop d rest (some n.id) (d n) else hitLoop d rest c m

/-- Hover hit-test of the canvas NetworkMap handleMouseMove: linear scan,
squared threshold 400 (20 pixels), returns the hovered node id or none. -/
def hitTest (nodes : List Node) (b : Bounds) (w h : ℚ) (tf : Transform)
    (m : ℚ × ℚ) : Option String :=
  (hitLoop (nodeDistSq b w h tf m) nodes none 400).1

/-- Interaction state of the canvas NetworkMap component. -/
structure MapState where
  transform : Transform
  hoveredNode : Option String
  isDragging : Bool
  lastMouse : ℚ × ℚ
  deriving DecidableEq

/-- Pointer-down handler: latch dragging and the pointer position. -/
def handleMouseDown (st : MapState) (ex ey : ℚ) : MapState :=
  { st with isDragging := true, lastMouse := (ex, ey) }

/-- Pointer-move handler.  While dragging, the raw pointer delta is added to
the transform offset and the latched pointer updated; otherwise the hover
hit-test runs on the pointer position relative to the canvas rectangle
origin (rl, rt). -/
def handleMouseMove (nodes : List Node) (w h rl rt : ℚ) (st : MapState)
    (ex ey : ℚ) : MapState :=
  if st.isDragging then
    let dx := ex - st.lastMouse.1
    let dy := ey - st.lastMouse.2
    { st with lastMouse := (ex, ey),
              transform := { st.transform with
                             x := st.transform.x + dx, y := st.transform.y + dy } }
  else
    let mx := ex - rl
    let my := ey - rt
    { st with hoveredNode := hitTest nodes (getBounds nodes) w h st.transform (mx, my) }

/-- Pointer-up (and pointer-leave) handler: clear dragging. -/
def handleMouseUp (st : MapState) : MapState :=
  { st with isDragging := false }

/-- Wheel handler: multiply scale by 0.9 (positive deltaY) or 1.1, then
clamp into the 0.1 to 10 range. -/
def handleWheel (st : MapState) (deltaY : ℚ) : MapState :=
  let factor : ℚ := if 0 < deltaY then 9 / 10 else 11 / 10
  { st with transform := { st.transform with
      scale := max (1 / 10) (min 10 (st.transform.scale * factor)) } }

/-- Zoom-in button action: multiply scale by 1.3 (no clamping in source). -/
def zoomInAction (st : MapState) : MapState :=
  { st with transform := { st.transform with scale := st.transform.scale * (13 / 10) } }

/-- Zoom-out button action: multiply scale by 0.7 (no clamping in source). -/
def zoomOutAction (st : MapState) : MapState :=
  { st with transform := { st.transform with scale := st.transform.scale * (7 / 10) } }

/-- Reset button action: restore the identity transform. -/
def resetAction (st : MapState) : MapState :=
  { st with transform := ⟨0, 0, 1⟩ }

/-- A draw primitive emitted by the canvas NetworkMap draw pass:
a pipe line segment or a filled or stroked circle of a given radius. -/
inductive CanvasPrim where
  | segment (x1 y1 x2 y2 : ℚ)
  | circle (x y r : ℚ)
  deriving DecidableEq

/-- Primitive for one edge of the canvas draw pass: both endpoints are
looked up in the node map and the edge is skipped (none) when either
endpoint does not resolve. -/
def edgePrim (nodes : List Node) (b : Bounds) (w h : ℚ) (tf : Transform)
    (e : Edge) : Option CanvasPrim :=
  match nodeMap nodes e.start_node, nodeMap nodes e.end_node with
  | some s, some t =>
    let p1 := toCanvas s.x s.y b w h tf
    let p2 := toCanvas t.x t.y b w h tf
    some (CanvasPrim.segment p1.1 p1.2 p2.1 p2.2)
  | _, _ => none

/-- Primitives for one node of the canvas draw pass: reservoirs draw a
filled disc (radius 8 hovered, else 6) plus a ring of radius 10, tanks a
disc (7 hovered, else 5), junctions a dot (4.5 hovered, else 1.8) with an
extra glow disc when hovered. -/
def nodePrims (hovered : Option String) (b : Bounds) (w h : ℚ) (tf : Transform)
    (n : Node) : List CanvasPrim :=
  let p := toCanvas n.x n.y b w h tf
  let isHovered := hovered = some n.id
  if n.type = "reservoir" then
    [CanvasPrim.circle p.1 p.2 (if isHovered then 8 else 6),
     CanvasPrim.circle p.1 p.2 10]
  else if n.type = "tank" then
    [CanvasPrim.circle p.1 p.2 (if isHovered then 7 else 5)]
  else
    CanvasPrim.circle p.1 p.2 (if isHovered then 9 / 2 else 9 / 5) ::
      (if isHovered then [CanvasPrim.circle p.1 p.2 (9 / 2)] else [])

/-- Pipe and node layers of the canvas NetworkMap draw pass: all resolvable
edges as segments, followed by every node's circles. -/
def drawPrims (network : Network) (w h : ℚ) (tf : Transform)
    (hovered : Option String) : List CanvasPrim :=
  let b := getBounds network.nodes
  network.edges.filterMap (edgePrim network.nodes b w h tf) ++
    network.nodes.flatMap (nodePrims hovered b w h tf)

/-- Heatmap radius encoding of the sandbox buildFigData:
size = weight times 120, plus 30. -/
def heatSize (w : ℚ) : ℚ := w * 120 + 30

/-- Heatmap opacity encoding of the sandbox buildFigData:
rgba alpha = weight times 0.4. -/
def heatOpacity (w : ℚ) : ℚ := w * (2 / 5)

/-- Heatmap point size of the 3D plotly NetworkMap:
hSize entry = weight times 25, plus 8. -/
def hSizeOf (w : ℚ) : ℚ := w * 25 + 8

/-- Heatmap color-scale position of the 3D plotly NetworkMap:
hColor entry is the weight itself. -/
def hColorOf (w : ℚ) : ℚ := w

/-- A node of the sandbox grid network. -/
structure SbNode where
  id : String
  x : ℚ
  y : ℚ
  deriving DecidableEq

/-- A pipe of the sandbox grid network; source field names are
start and end. -/
structure SbPipe where
  id : String
  startId : String
  endId : String
  deriving DecidableEq

/-- The sandbox network payload: nodes, pipes, sensor node ids. -/
structure SbNetwork where
  nodes : List SbNode
  pipes : List SbPipe
  sensors : List String
  deriving DecidableEq

/-- One heatmap sample point. -/
structure HeatPoint where
  x : ℚ
  y : ℚ
  weight : ℚ
  deriving DecidableEq

/-- One sandbox simulation prediction. -/
structure SimPred where
  pipe : String
  pred_x : ℚ
  pred_y : ℚ
  true_x : ℚ
  true_y : ℚ
  error : ℚ
  heatmap : Option (List HeatPoint)
  deriving DecidableEq

/-- A draw primitive pushed by the sandbox buildFigData, in the shapes the
source pushes them: one trace per pipe, one batched nodes trace, one batched
sensors trace, one batched placed-leaks trace, one trace per heatmap point,
one batched prediction-markers trace, one dashed error line per prediction. -/
inductive Prim where
  | pipe (x1 y1 x2 y2 : ℚ) (isLeak : Bool)
  | nodesTrace (xs ys : List ℚ)
  | sensorsTrace (xs ys : List ℚ)
  | leakTrace (xs ys : List ℚ)
  | heatPoint (x y size opacity : ℚ)
  | predTrace (xs ys : List ℚ)
  | errLine (x1 y1 x2 y2 : ℚ)
  deriving DecidableEq

/-- Back-to-front layer rank of a sandbox primitive, in source push order. -/
def layerRank : Prim → ℕ
  | .pipe _ _ _ _ _ => 0
  | .nodesTrace _ _ => 1
  | .sensorsTrace _ _ => 2
  | .leakTrace _ _ => 3
  | .heatPoint _ _ _ _ => 4
  | .predTrace _ _ => 5
  | .errLine _ _ _ _ => 6

/-- Node lookup map of the sandbox page, built like nodeMap. -/
def sbNodeMap (nodes : List SbNode) (key : String) : Option SbNode :=
  nodes.foldl (fun acc n => if n.id = key then some n else acc) none

/-- Primitive for one sandbox pipe: skipped when either endpoint is missing
from the node map, otherwise a line whose styling depends on whether the
pipe is a selected leak. -/
def pipePrim (nodes : List SbNode) (selectedLeaks : List String)
    (p : SbPipe) : Option Prim :=
  match sbNodeMap nodes p.startId, sbNodeMap nodes p.endId with
  | some n1, some n2 =>
    some (Prim.pipe n1.x n1.y n2.x n2.y (selectedLeaks.contains p.id))
  | _, _ => none

/-- Midpoint marker coordinates for one selected leak pipe id: the first
pipe with that id is looked up, and dropped when absent or unresolvable. -/
def leakCoord (network : SbNetwork) (pid : String) : Option (ℚ × ℚ) :=
  match network.pipes.find? (fun pp => pp.id == pid) with
  | none => none
  | some p =>
    match sbNodeMap network.nodes p.startId, sbNodeMap network.nodes p.endId with
    | some n1, some n2 => some ((n1.x + n2.x) / 2, (n1.y + n2.y) / 2)
    | _, _ => none

/-- Heatmap primitives of one sandbox prediction: one point per heatmap
sample, radius and opacity encoded from the weight; predictions without a
heatmap contribute nothing. -/
def heatPrims (p : SimPred) : List Prim :=
  match p.heatmap with
  | some hs => hs.map fun hp =>
      Prim.heatPoint hp.x hp.y (heatSize hp.weight) (heatOpacity hp.weight)
  | none => []

/-- Draw-list builder of the sandbox page (source name buildFigData):
pipes, then the nodes trace, the sensors trace, the placed-leak markers
(only when leaks are selected), and, when simulation results are present,
heatmap points, the prediction-markers trace, and per-prediction error
lines — pushed in exactly this order. -/
def buildFigData (network : SbNetwork) (selectedLeaks : List String)
    (sim : Option (List SimPred)) : List Prim :=
  let pipesL := network.pipes.filterMap (pipePrim network.nodes selectedLeaks)
  let nodesT := [Prim.nodesTrace (network.nodes.map SbNode.x)
                                 (network.nodes.map SbNode.y)]
  let sCoords := (network.sensors.map (sbNodeMap network.nodes)).reduceOption
  let sensorsT := [Prim.sensorsTrace (sCoords.map SbNode.x) (sCoords.map SbNode.y)]
  let leakT :=
    if 0 < selectedLeaks.length then
      let lc := selectedLeaks.filterMap (leakCoord network)
      [Prim.leakTrace (lc.map Prod.fst) (lc.map Prod.snd)]
    else []
  let simT :=
    match sim with
    | none => []
    | some preds =>
      preds.flatMap heatPrims ++
        [Prim.predTrace (preds.map SimPred.pred_x) (preds.map SimPred.pred_y)] ++
        preds.map fun p => Prim.errLine p.true_x p.true_y p.pred_x p.pred_y
  pipesL ++ nodesT ++ sensorsT ++ leakT ++ simT

/-- Spec-side rendering of the section 4.1 worldToScreen contract, written
from the spec's words: uniform scale min(w over boundsWidth, h over
boundsHeight) times 0.85, bounds midpoint centered, transform scale as a
multiplicative zoom, transform offset as a post-projection translation,
Y axis flipped. -/
def specWorldToScreen (wx wy : ℚ) (b : Bounds) (w h : ℚ) (tf : Transform) : ℚ × ℚ :=
  let s := min (w / (b.maxX - b.minX)) (h / (b.maxY - b.minY)) * (17 / 20)
  let mx := (b.minX + b.maxX) / 2
  let my := (b.minY + b.maxY) / 2
  ((wx - mx) * s * tf.scale + w / 2 + tf.x,
   -(wy - my) * s * tf.scale + h / 2 + tf.y)

/-- Spec-side axis padding from section 4.2's words: 8 percent of the span,
or 1 unit when the span is zero. -/
def specPad (span : ℚ) : ℚ :=
  if span = 0 then 1 else span * (2 / 25)

/-- Modelled from the spec: screenToWorld is absent from the observed
source (section 4.1 notes it is used only for round-trip testing); it is
the algebraic inverse of the worldToScreen projection. -/
def screenToWorld (sx sy : ℚ) (b : Bounds) (w h : ℚ) (tf : Transform) : ℚ × ℚ :=
  let s := min (w / (b.maxX - b.minX)) (h / (b.maxY - b.minY)) * (17 / 20)
  let mx := (b.minX + b.maxX) / 2
  let my := (b.minY + b.maxY) / 2
  ((sx - w / 2 - tf.x) / (s * tf.scale) + mx,
   -((sy - h / 2 - tf.y) / (s * tf.scale)) + my)

/-- Scenario A network nodes: two junctions at (0,0) and (10,10). -/
def scenarioANodes : List Node :=
  [⟨"n1", 0, 0, "junction", 0⟩, ⟨"n2", 10, 10, "junction", 0⟩]

/-- Concrete interaction state at the upper zoom bound, used as the
counterexample input for the zoom-clamp claim. -/
def st10 : MapState := ⟨⟨0, 0, 10⟩, none, false, (0, 0)⟩

/-- Concrete dragging state used to witness the frame-effect claim. -/
def stDragW : MapState := ⟨⟨1, 2, 3⟩, none, true, (0, 0)⟩

/-- C1 (counterexample): starting from scale 10, inside the claimed
invariant range, the zoom-in button multiplies by 1.3 without clamping and
leaves scale at 13, outside the claimed range. -/
theorem zoom_button_unclamped_cex :
    (1 / 10 ≤ st10.transform.scale ∧ st10.transform.scale ≤ 10) ∧
    (zoomInAction st10).transform.scale = 13 ∧
    ¬ (zoomInAction st10).transform.scale ≤ 10 := by
  norm_num [st10, zoomInAction]

/-- C1 (amended): every wheel zoom operation clamps, so after any wheel
event the transform scale lies in the range 0.1 to 10 (in particular the
invariant holds across all wheel-zoom sequences); the explicit zoom
buttons multiply scale by 1.3 or 0.7 without clamping. -/
theorem wheel_zoom_scale_clamped (st : MapState) (deltaY : ℚ) :
    1 / 10 ≤ (handleWheel st deltaY).transform.scale ∧
    (handleWheel st deltaY).transform.scale ≤ 10 := by
  refine ⟨le_max_left _ _, ?_⟩
  exact max_le (by norm_num) (min_le_left _ _)

/-- C4: the worldToScreen projection computes exactly the section 4.1
formula — uniform scale 0.85 times the min axis ratio, midpoint centered,
zoom and offset applied, Y flipped — and in Scenario A the bounds midpoint
(5,5) lands exactly at the center (400,300) of an 800 by 600 viewport. -/
theorem toCanvas_matches_spec :
    (∀ (wx wy : ℚ) (b : Bounds) (w h : ℚ) (tf : Transform),
        b.minX < b.maxX → b.minY < b.maxY →
        toCanvas wx wy b w h tf = specWorldToScreen wx wy b w h tf) ∧
    toCanvas 5 5 (getBounds scenarioANodes) 800 600 ⟨0, 0, 1⟩ = (400, 300) := by
  constructor
  · intro wx wy b w h tf _ _
    rfl
  · norm_num [toCanvas, getBounds, scenarioANodes, Prod.ext_iff]

/-- Witness for C4: the projection formula instantiated at a concrete
non-degenerate input. -/
theorem toCanvas_matches_spec_witness :
    ((⟨0, 10, 0, 10⟩ : Bounds).minX < (⟨0, 10, 0, 10⟩ : Bounds).maxX) ∧
    ((⟨0, 10, 0, 10⟩ : Bounds).minY < (⟨0, 10, 0, 10⟩ : Bounds).maxY) ∧
    toCanvas 3 4 ⟨0, 10, 0, 10⟩ 800 600 ⟨1, 2, 3⟩ =
      specWorldToScreen 3 4 ⟨0, 10, 0, 10⟩ 800 600 ⟨1, 2, 3⟩ :=
  ⟨by norm_num, by norm_num,
    toCanvas_matches_spec.1 3 4 ⟨0, 10, 0, 10⟩ 800 600 ⟨1, 2, 3⟩
      (by norm_num) (by norm_num)⟩

/-- C6: the heatmap encodings are linear and monotone in the weight —
radius and opacity are nondecreasing for weights w1 less than w2 in the
unit interval, strictly greater at weight 0.9 than at 0.1, and the
color-scale position is the weight itself. -/
theorem heat_encoding_monotone :
    (∀ w1 w2 : ℚ, 0 ≤ w1 → w1 < w2 → w2 ≤ 1 →
        heatSize w1 ≤ heatSize w2 ∧ heatOpacity w1 ≤ heatOpacity w2 ∧
        hSizeOf w1 ≤ hSizeOf w2) ∧
    heatSize (1 / 10) < heatSize (9 / 10) ∧
    heatOpacity (1 / 10) < heatOpacity (9 / 10) ∧
    hSizeOf (1 / 10) < hSizeOf (9 / 10) ∧
    (∀ w : ℚ, hColorOf w = w) := by
  refine ⟨?_, by norm_num [heatSize], by norm_num [heatOpacity],
    by norm_num [hSizeOf], fun w => rfl⟩
  intro w1 w2 _ hlt _
  unfold heatSize heatOpacity hSizeOf
  refine ⟨by linarith, by linarith, by linarith⟩

/-- Witness for C6: monotonicity instantiated at weights 0.25 and 0.75. -/
theorem heat_encoding_monotone_witness :
    (0 : ℚ) ≤ 1 / 4 ∧ (1 / 4 : ℚ) < 3 / 4 ∧ (3 / 4 : ℚ) ≤ 1 ∧
    (heatSize (1 / 4) ≤ heatSize (3 / 4) ∧
      heatOpacity (1 / 4) ≤ heatOpacity (3 / 4) ∧
      hSizeOf (1 / 4) ≤ hSizeOf (3 / 4)) :=
  ⟨by norm_num, by norm_num, by norm_num,
    heat_encoding_monotone.1 (1 / 4) (3 / 4) (by norm_num) (by norm_num) (by norm_num)⟩

/-- C9: a pointer-down at any position followed by a move of (50, -20) and
a pointer-up adds exactly (50, -20) to the transform offset, for every
starting state (in particular every starting transform and zoom scale). -/
theorem drag_pan_offset_delta (nodes : List Node) (w h rl rt : ℚ)
    (st : MapState) (x0 y0 : ℚ) :
    (handleMouseUp (handleMouseMove nodes w h rl rt (handleMouseDown st x0 y0)
        (x0 + 50) (y0 - 20))).transform.x = st.transform.x + 50 ∧
    (handleMouseUp (handleMouseMove nodes w h rl rt (handleMouseDown st x0 y0)
        (x0 + 50) (y0 - 20))).transform.y = st.transform.y - 20 := by
  constructor <;> simp [handleMouseDown, handleMouseMove, handleMouseUp] <;> ring

/-- C10: each viewport operation touches only its own transform field —
wheel zoom leaves both offset components unchanged, a pan move while
dragging leaves the scale unchanged, both zoom buttons leave the offset
unchanged, and reset restores exactly the identity transform. -/
theorem transform_frame_effects :
    (∀ (st : MapState) (deltaY : ℚ),
        (handleWheel st deltaY).transform.x = st.transform.x ∧
        (handleWheel st deltaY).transform.y = st.transform.y) ∧
    (∀ (nodes : List Node) (w h rl rt : ℚ) (st : MapState) (ex ey : ℚ),
        st.isDragging = true →
        (handleMouseMove nodes w h rl rt st ex ey).transform.scale
          = st.transform.scale) ∧
    (∀ st : MapState,
        (zoomInAction st).transform.x = st.transform.x ∧
        (zoomInAction st).transform.y = st.transform.y) ∧
    (∀ st : MapState,
        (zoomOutAction st).transform.x = st.transform.x ∧
        (zoomOutAction st).transform.y = st.transform.y) ∧
    (∀ st : MapState, (resetAction st).transform = ⟨0, 0, 1⟩) := by
  refine ⟨fun st d => ⟨rfl, rfl⟩, ?_, fun st => ⟨rfl, rfl⟩,
    fun st => ⟨rfl, rfl⟩, fun st => rfl⟩
  intro nodes w h rl rt st ex ey hdrag
  simp [handleMouseMove, hdrag]

/-- Witness for C10: the pan-move frame condition at a concrete dragging
state. -/
theorem transform_frame_effects_witness :
    stDragW.isDragging = true ∧
    (handleMouseMove [] 800 600 0 0 stDragW 5 5).transform.scale
      = stDragW.transform.scale :=
  ⟨rfl, transform_frame_effects.2.1 [] 800 600 0 0 stDragW 5 5 rfl⟩

/-- Concrete single node for the bounds-calculator witness. -/
def wNode : Node := ⟨"J1", 3, 4, "junction", 0⟩

/-- Concrete network with one resolvable edge and one edge whose end node
id is unknown, for the unresolved-link witness. -/
def wNetC : Network :=
  ⟨[⟨"A", 0, 0, "junction", 0⟩, ⟨"B", 10, 10, "junction", 0⟩],
   [⟨"A", "B"⟩, ⟨"A", "ZZZ"⟩]⟩

theorem foldl_min_mem (a : ℚ) (l : List ℚ) : l.foldl min a ∈ a :: l := by
  induction l generalizing a with
  | nil => exact List.mem_cons_self a []
  | cons b t ih =>
    rw [List.foldl_cons]
    rcases List.mem_cons.mp (ih (min a b)) with h1 | h1
    · rcases min_choice a b with h2 | h2
      · rw [h1, h2]; exact List.mem_cons_self a (b :: t)
      · rw [h1, h2]; exact List.mem_cons_of_mem a (List.mem_cons_self b t)
    · exact List.mem_cons_of_mem a (List.mem_cons_of_mem b h1)

theorem foldl_min_le (a : ℚ) (l : List ℚ) : ∀ x ∈ a :: l, l.foldl min a ≤ x := by
  induction l generalizing a with
  | nil =>
    intro x hx
    rcases List.mem_cons.mp hx with h | h
    · rw [h, List.foldl_nil]
    · exact absurd h (List.not_mem_nil x)
  | cons b t ih =>
    intro x hx
    rw [List.foldl_cons]
    have hmin := ih (min a b)
    rcases List.mem_cons.mp hx with h | hx1
    · rw [h]
      exact le_trans (hmin (min a b) (List.mem_cons_self _ _)) (min_le_left a b)
    · rcases List.mem_cons.mp hx1 with h | hx2
      · rw [h]
        exact le_trans (hmin (min a b) (List.mem_cons_self _ _)) (min_le_right a b)
      · exact hmin x (List.mem_cons_of_mem _ hx2)

theorem foldl_max_mem (a : ℚ) (l : List ℚ) : l.foldl max a ∈ a :: l := by
  induction l generalizing a with
  | nil => exact List.mem_cons_self a []
  | cons b t ih =>
    rw [List.foldl_cons]
    rcases List.mem_cons.mp (ih (max a b)) with h1 | h1
    · rcases max_choice a b with h2 | h2
      · rw [h1, h2]; exact List.mem_cons_self a (b :: t)
      · rw [h1, h2]; exact List.mem_cons_of_mem a (List.mem_cons_self b t)
    · exact List.mem_cons_of_mem a (List.mem_cons_of_mem b h1)

theorem le_foldl_max (a : ℚ) (l : List ℚ) : ∀ x ∈ a :: l, x ≤ l.foldl max a := by
  induction l generalizing a with
  | nil =>
    intro x hx
    rcases List.mem_cons.mp hx with h | h
    · rw [h, List.foldl_nil]
    · exact absurd h (List.not_mem_nil x)
  | cons b t ih =>
    intro x hx
    rw [List.foldl_cons]
    have hmax := ih (max a b)
    rcases List.mem_cons.mp hx with h | hx1
    · rw [h]
      exact le_trans (le_max_left a b) (hmax (max a b) (List.mem_cons_self _ _))
    · rcases List.mem_cons.mp hx1 with h | hx2
      · rw [h]
        exact le_trans (le_max_right a b) (hmax (max a b) (List.mem_cons_self _ _))
      · exact hmax x (List.mem_cons_of_mem _ hx2)

theorem pad_eq_specPad (s : ℚ) :
    (if s * (2 / 25) = 0 then 1 else s * (2 / 25)) = specPad s := by
  unfold specPad
  by_cases h : s = 0
  · simp [h]
  · rw [if_neg (mul_ne_zero h (by norm_num)), if_neg h]

/-- C5: the bounds calculator returns the unit box on the empty node list,
and otherwise the per-axis minimum and maximum of the node coordinates,
each axis padded on both sides by 8 percent of its span, or by 1 unit when
that span is zero. -/
theorem getBounds_spec (nodes : List Node) :
    (nodes = [] → getBounds nodes = ⟨0, 1, 0, 1⟩) ∧
    (nodes ≠ [] → ∃ xmin xmax ymin ymax : ℚ,
      xmin ∈ nodes.map Node.x ∧ (∀ a ∈ nodes.map Node.x, xmin ≤ a) ∧
      xmax ∈ nodes.map Node.x ∧ (∀ a ∈ nodes.map Node.x, a ≤ xmax) ∧
      ymin ∈ nodes.map Node.y ∧ (∀ a ∈ nodes.map Node.y, ymin ≤ a) ∧
      ymax ∈ nodes.map Node.y ∧ (∀ a ∈ nodes.map Node.y, a ≤ ymax) ∧
      getBounds nodes =
        ⟨xmin - specPad (xmax - xmin), xmax + specPad (xmax - xmin),
         ymin - specPad (ymax - ymin), ymax + specPad (ymax - ymin)⟩) := by
  constructor
  · intro he; subst he; rfl
  · intro hne
    cases nodes with
    | nil => exact absurd rfl hne
    | cons n rest =>
      refine ⟨(rest.map Node.x).foldl min n.x, (rest.map Node.x).foldl max n.x,
              (rest.map Node.y).foldl min n.y, (rest.map Node.y).foldl max n.y,
              ?_, ?_, ?_, ?_, ?_, ?_, ?_, ?_, ?_⟩
      · simpa using foldl_min_mem n.x (rest.map Node.x)
      · simpa using foldl_min_le n.x (rest.map Node.x)
      · simpa using foldl_max_mem n.x (rest.map Node.x)
      · simpa using le_foldl_max n.x (rest.map Node.x)
      · simpa using foldl_min_mem n.y (rest.map Node.y)
      · simpa using foldl_min_le n.y (rest.map Node.y)
      · simpa using foldl_max_mem n.y (rest.map Node.y)
      · simpa using le_foldl_max n.y (rest.map Node.y)
      · simp only [getBounds, List.foldl_map, pad_eq_specPad]

/-- Witness for C5: the bounds characterization at a one-node list, whose
zero span forces the 1-unit padding. -/
theorem getBounds_spec_witness :
    ([wNode] ≠ []) ∧
    (∃ xmin xmax ymin ymax : ℚ,
      xmin ∈ [wNode].map Node.x ∧ (∀ a ∈ [wNode].map Node.x, xmin ≤ a) ∧
      xmax ∈ [wNode].map Node.x ∧ (∀ a ∈ [wNode].map Node.x, a ≤ xmax) ∧
      ymin ∈ [wNode].map Node.y ∧ (∀ a ∈ [wNode].map Node.y, ymin ≤ a) ∧
      ymax ∈ [wNode].map Node.y ∧ (∀ a ∈ [wNode].map Node.y, a ≤ ymax) ∧
      getBounds [wNode] =
        ⟨xmin - specPad (xmax - xmin), xmax + specPad (xmax - xmin),
         ymin - specPad (ymax - ymin), ymax + specPad (ymax - ymin)⟩) :=
  ⟨by simp, (getBounds_spec [wNode]).2 (by simp)⟩

/-- C7: an edge whose start or end node id does not resolve in the node map
contributes no draw primitive and raises no error: the draw pass output is
identical to the output on the same network with that edge absent. -/
theorem unresolved_edge_skipped (network : Network) (w h : ℚ) (tf : Transform)
    (hov : Option String) (l1 l2 : List Edge) (e : Edge)
    (hsplit : network.edges = l1 ++ e :: l2)
    (hmiss : nodeMap network.nodes e.start_node = none ∨
             nodeMap network.nodes e.end_node = none) :
    drawPrims network w h tf hov = drawPrims ⟨network.nodes, l1 ++ l2⟩ w h tf hov := by
  have hnone : ∀ b : Bounds, edgePrim network.nodes b w h tf e = none := by
    intro b
    unfold edgePrim
    rcases h1 : nodeMap network.nodes e.start_node with _ | s <;>
      rcases h2 : nodeMap network.nodes e.end_node with _ | t <;>
      simp_all
  unfold drawPrims
  rw [hsplit]
  simp [List.filterMap_append, List.filterMap_cons, hnone]

/-- Witness for C7: a concrete network in which the second edge points at
the unknown node id ZZZ; dropping it leaves the draw output unchanged. -/
theorem unresolved_edge_skipped_witness :
    (wNetC.edges = [(⟨"A", "B"⟩ : Edge)] ++ (⟨"A", "ZZZ"⟩ : Edge) :: [] ∧
      (nodeMap wNetC.nodes "A" = none ∨ nodeMap wNetC.nodes "ZZZ" = none)) ∧
    drawPrims wNetC 800 600 ⟨0, 0, 1⟩ none =
      drawPrims ⟨wNetC.nodes, [(⟨"A", "B"⟩ : Edge)] ++ []⟩ 800 600 ⟨0, 0, 1⟩ none :=
  ⟨⟨rfl, Or.inr rfl⟩,
    unresolved_edge_skipped wNetC 800 600 ⟨0, 0, 1⟩ none
      [⟨"A", "B"⟩] [] ⟨"A", "ZZZ"⟩ rfl (Or.inr rfl)⟩

/-- C8: over exact arithmetic, screenToWorld is a left inverse of the
worldToScreen projection: for any point inside non-degenerate bounds, a
positive viewport and a nonzero zoom scale, the round trip is the
identity. -/
theorem screenToWorld_roundTrip (wx wy : ℚ) (b : Bounds) (w h : ℚ) (tf : Transform)
    (hbx : b.minX < b.maxX) (hby : b.minY < b.maxY) (hw : 0 < w) (hh : 0 < h)
    (hscale : tf.scale ≠ 0)
    (hx1 : b.minX ≤ wx) (hx2 : wx ≤ b.maxX) (hy1 : b.minY ≤ wy) (hy2 : wy ≤ b.maxY) :
    screenToWorld (toCanvas wx wy b w h tf).1 (toCanvas wx wy b w h tf).2 b w h tf
      = (wx, wy) := by
  have hs : (0 : ℚ) < min (w / (b.maxX - b.minX)) (h / (b.maxY - b.minY)) * (17 / 20) :=
    mul_pos (lt_min (div_pos hw (by linarith)) (div_pos hh (by linarith))) (by norm_num)
  have hs0 : min (w / (b.maxX - b.minX)) (h / (b.maxY - b.minY)) * (17 / 20) ≠ 0 :=
    ne_of_gt hs
  have key : ∀ s sc cx t mx u : ℚ, s * sc ≠ 0 →
      ((u - mx) * s * sc + cx + t - cx - t) / (s * sc) + mx = u := by
    intro s sc cx t mx u hns
    have hnum : (u - mx) * s * sc + cx + t - cx - t = (u - mx) * (s * sc) := by ring
    rw [hnum, mul_div_assoc, div_self hns, mul_one]
    ring
  have key2 : ∀ s sc cy t my u : ℚ, s * sc ≠ 0 →
      -((-(u - my) * s * sc + cy + t - cy - t) / (s * sc)) + my = u := by
    intro s sc cy t my u hns
    have hnum : -(u - my) * s * sc + cy + t - cy - t = -(u - my) * (s * sc) := by ring
    rw [hnum, mul_div_assoc, div_self hns, mul_one]
    ring
  simp only [toCanvas, screenToWorld, Prod.mk.injEq]
  constructor
  · exact key _ tf.scale (w / 2) tf.x ((b.minX + b.maxX) / 2) wx (mul_ne_zero hs0 hscale)
  · exact key2 _ tf.scale (h / 2) tf.y ((b.minY + b.maxY) / 2) wy (mul_ne_zero hs0 hscale)

/-- Concrete node for the hit-test witness. -/
def wHitNode : Node := ⟨"J1", 0, 0, "junction", 0⟩

theorem hitLoop_keeps (d : Node → ℚ) (l : List Node) (c : Option String) (m : ℚ)
    (h : ∀ n ∈ l, m ≤ d n) : hitLoop d l c m = (c, m) := by
  induction l generalizing c m with
  | nil => rfl
  | cons n rest ih =>
    have hn : ¬ d n < m := not_lt.mpr (h n (List.mem_cons_self n rest))
    simp only [hitLoop, if_neg hn]
    exact ih c m fun x hx => h x (List.mem_cons_of_mem n hx)

theorem hitLoop_found (d : Node → ℚ) (l : List Node) (c : Option String) (m : ℚ)
    (h : ∃ n ∈ l, d n < m) :
    ∃ i : Fin l.length, (hitLoop d l c m).1 = some (l.get i).id ∧ d (l.get i) < m ∧
      (∀ n ∈ l, d (l.get i) ≤ d n) ∧
      (∀ j : Fin l.length, (j : ℕ) < (i : ℕ) → d (l.get i) < d (l.get j)) := by
  induction l generalizing c m with
  | nil =>
    obtain ⟨n, hn, _⟩ := h
    exact absurd hn (List.not_mem_nil n)
  | cons n rest ih =>
    by_cases hn : d n < m
    · by_cases hr : ∃ x ∈ rest, d x < d n
      · obtain ⟨i, hi1, hi2, hi3, hi4⟩ := ih (some n.id) (d n) hr
        refine ⟨⟨(i : ℕ) + 1, Nat.succ_lt_succ i.isLt⟩, ?_, ?_, ?_, ?_⟩
        · simp only [hitLoop, if_pos hn]
          exact hi1
        · exact hi2.trans hn
        · intro x hx
          rcases List.mem_cons.mp hx with hh | hh
          · rw [hh]
            exact hi2.le
          · exact hi3 x hh
        · intro j hj
          obtain ⟨jv, hjlt⟩ := j
          cases jv with
          | zero => exact hi2
          | succ jv2 =>
            have hj2 : jv2 + 1 < (i : ℕ) + 1 := hj
            exact hi4 ⟨jv2, Nat.lt_of_succ_lt_succ hjlt⟩ (Nat.lt_of_succ_lt_succ hj2)
      · push_neg at hr
        have hrest := hitLoop_keeps d rest (some n.id) (d n) hr
        refine ⟨⟨0, Nat.succ_pos rest.length⟩, ?_, hn, ?_, ?_⟩
        · simp only [hitLoop, if_pos hn, hrest]
          rfl
        · intro x hx
          rcases List.mem_cons.mp hx with hh | hh
          · rw [hh]
            exact le_refl (d n)
          · exact hr x hh
        · intro j hj
          exact absurd hj (Nat.not_lt_zero _)
    · have hnm : m ≤ d n := not_lt.mp hn
      have h2 : ∃ x ∈ rest, d x < m := by
        obtain ⟨x, hx, hdx⟩ := h
        rcases List.mem_cons.mp hx with hh | hh
        · rw [hh] at hdx
          exact absurd hdx hn
        · exact ⟨x, hh, hdx⟩
      obtain ⟨i, hi1, hi2, hi3, hi4⟩ := ih c m h2
      refine ⟨⟨(i : ℕ) + 1, Nat.succ_lt_succ i.isLt⟩, ?_, hi2, ?_, ?_⟩
      · simp only [hitLoop, if_neg hn]
        exact hi1
      · intro x hx
        rcases List.mem_cons.mp hx with hh | hh
        · rw [hh]
          exact (hi2.trans_le hnm).le
        · exact hi3 x hh
      · intro j hj
        obtain ⟨jv, hjlt⟩ := j
        cases jv with
        | zero => exact hi2.trans_le hnm
        | succ jv2 =>
          have hj2 : jv2 + 1 < (i : ℕ) + 1 := hj
          exact hi4 ⟨jv2, Nat.lt_of_succ_lt_succ hjlt⟩ (Nat.lt_of_succ_lt_succ hj2)

/-- C3: the hover hit-test returns none exactly when every node's projected
squared screen distance to the pointer is at least the squared 20-pixel
threshold; otherwise it returns the id of a node at minimal distance, and
among equally minimal nodes the first one in list order (every earlier node
is strictly farther). -/
theorem hitTest_char (nodes : List Node) (b : Bounds) (w h : ℚ) (tf : Transform)
    (m : ℚ × ℚ) :
    ((∀ n ∈ nodes, 400 ≤ nodeDistSq b w h tf m n) →
        hitTest nodes b w h tf m = none) ∧
    ((∃ n ∈ nodes, nodeDistSq b w h tf m n < 400) →
        ∃ i : Fin nodes.length,
          hitTest nodes b w h tf m = some (nodes.get i).id ∧
          nodeDistSq b w h tf m (nodes.get i) < 400 ∧
          (∀ n ∈ nodes, nodeDistSq b w h tf m (nodes.get i) ≤ nodeDistSq b w h tf m n) ∧
          (∀ j : Fin nodes.length, (j : ℕ) < (i : ℕ) →
            nodeDistSq b w h tf m (nodes.get i) < nodeDistSq b w h tf m (nodes.get j))) := by
  constructor
  · intro hfar
    unfold hitTest
    rw [hitLoop_keeps (nodeDistSq b w h tf m) nodes none 400 hfar]
  · intro hex
    exact hitLoop_found (nodeDistSq b w h tf m) nodes none 400 hex

theorem wHitFar :
    ∀ n ∈ [wHitNode], (400 : ℚ) ≤ nodeDistSq ⟨0, 1, 0, 1⟩ 1 1 ⟨0, 0, 1⟩ (100, 100) n := by
  intro n hn
  rw [List.mem_singleton.mp hn]
  norm_num [wHitNode, nodeDistSq, distSq, toCanvas]

/-- Witness for C3: a pointer far from the only node's projection makes the
hit-test return none. -/
theorem hitTest_char_witness :
    (∀ n ∈ [wHitNode],
        (400 : ℚ) ≤ nodeDistSq ⟨0, 1, 0, 1⟩ 1 1 ⟨0, 0, 1⟩ (100, 100) n) ∧
    hitTest [wHitNode] ⟨0, 1, 0, 1⟩ 1 1 ⟨0, 0, 1⟩ (100, 100) = none :=
  ⟨wHitFar, (hitTest_char [wHitNode] ⟨0, 1, 0, 1⟩ 1 1 ⟨0, 0, 1⟩ (100, 100)).1 wHitFar⟩

/-- Witness for C8: the round trip at a concrete point, bounds, viewport
and transform with zoom scale 2. -/
theorem screenToWorld_roundTrip_witness :
    ((⟨0, 10, 0, 10⟩ : Bounds).minX < (⟨0, 10, 0, 10⟩ : Bounds).maxX) ∧
    ((⟨0, 10, 0, 10⟩ : Bounds).minY < (⟨0, 10, 0, 10⟩ : Bounds).maxY) ∧
    ((0 : ℚ) < 800) ∧ ((0 : ℚ) < 600) ∧ ((⟨3, 7, 2⟩ : Transform).scale ≠ 0) ∧
    screenToWorld (toCanvas 5 6 ⟨0, 10, 0, 10⟩ 800 600 ⟨3, 7, 2⟩).1
        (toCanvas 5 6 ⟨0, 10, 0, 10⟩ 800 600 ⟨3, 7, 2⟩).2
        ⟨0, 10, 0, 10⟩ 800 600 ⟨3, 7, 2⟩ = (5, 6) :=
  ⟨by norm_num, by norm_num, by norm_num, by norm_num, by norm_num,
    screenToWorld_roundTrip 5 6 ⟨0, 10, 0, 10⟩ 800 600 ⟨3, 7, 2⟩ (by norm_num)
      (by norm_num) (by norm_num) (by norm_num) (by norm_num) (by norm_num)
      (by norm_num) (by norm_num) (by norm_num)⟩

theorem pipePrim_rank (nodes : List SbNode) (sl : List String) (p : SbPipe) (a : Prim)
    (h : pipePrim nodes sl p = some a) : layerRank a = 0 := by
  unfold pipePrim at h
  split at h
  · rw [← Option.some.inj h]
    rfl
  · exact absurd h (by simp)

theorem heatPrims_rank (p : SimPred) (a : Prim) (h : a ∈ heatPrims p) :
    layerRank a = 4 := by
  unfold heatPrims at h
  rcases hh : p.heatmap with _ | hs <;> rw [hh] at h
  · exact absurd h (List.not_mem_nil a)
  · obtain ⟨hp, _, h2⟩ := List.mem_map.mp h
    rw [← h2]
    rfl

theorem pairwise_rank_of_const {l : List Prim} {c : ℕ}
    (h : ∀ a ∈ l, layerRank a = c) :
    l.Pairwise (fun a b => layerRank a ≤ layerRank b) := by
  induction l with
  | nil => exact List.Pairwise.nil
  | cons a t ih =>
    refine List.Pairwise.cons (fun b hb => ?_)
      (ih fun x hx => h x (List.mem_cons_of_mem a hx))
    rw [h a (List.mem_cons_self a t), h b (List.mem_cons_of_mem a hb)]

theorem pairwise_rank_append (c : ℕ) {l1 l2 : List Prim}
    (h1 : ∀ a ∈ l1, layerRank a ≤ c) (h2 : ∀ b ∈ l2, c ≤ layerRank b)
    (p1 : l1.Pairwise (fun a b => layerRank a ≤ layerRank b))
    (p2 : l2.Pairwise (fun a b => layerRank a ≤ layerRank b)) :
    (l1 ++ l2).Pairwise (fun a b => layerRank a ≤ layerRank b) := by
  rw [List.pairwise_append]
  exact ⟨p1, p2, fun a ha b hb => le_trans (h1 a ha) (h2 b hb)⟩

theorem pairwise_build (p0 n1 s2 l3 simB : List Prim)
    (h0 : ∀ a ∈ p0, layerRank a = 0) (hn : ∀ a ∈ n1, layerRank a = 1)
    (hs : ∀ a ∈ s2, layerRank a = 2) (hl : ∀ a ∈ l3, layerRank a = 3)
    (hsim : ∀ a ∈ simB, 4 ≤ layerRank a)
    (psim : simB.Pairwise (fun a b => layerRank a ≤ layerRank b)) :
    (p0 ++ n1 ++ s2 ++ l3 ++ simB).Pairwise
      (fun a b => layerRank a ≤ layerRank b) := by
  have p01 : (p0 ++ n1).Pairwise (fun a b => layerRank a ≤ layerRank b) :=
    pairwise_rank_append 0 (fun a ha => (h0 a ha).le) (fun b _ => Nat.zero_le _)
      (pairwise_rank_of_const h0) (pairwise_rank_of_const hn)
  have hb01 : ∀ a ∈ p0 ++ n1, layerRank a ≤ 2 := by
    intro a ha
    rcases List.mem_append.mp ha with hm | hm
    · rw [h0 a hm]; omega
    · rw [hn a hm]; omega
  have p012 : (p0 ++ n1 ++ s2).Pairwise (fun a b => layerRank a ≤ layerRank b) :=
    pairwise_rank_append 2 hb01 (fun b hb => (hs b hb).ge) p01
      (pairwise_rank_of_const hs)
  have hb012 : ∀ a ∈ p0 ++ n1 ++ s2, layerRank a ≤ 3 := by
    intro a ha
    rcases List.mem_append.mp ha with hm | hm
    · exact le_trans (hb01 a hm) (by omega)
    · rw [hs a hm]; omega
  have p0123 : (p0 ++ n1 ++ s2 ++ l3).Pairwise
      (fun a b => layerRank a ≤ layerRank b) :=
    pairwise_rank_append 3 hb012 (fun b hb => (hl b hb).ge) p012
      (pairwise_rank_of_const hl)
  have hb0123 : ∀ a ∈ p0 ++ n1 ++ s2 ++ l3, layerRank a ≤ 4 := by
    intro a ha
    rcases List.mem_append.mp ha with hm | hm
    · exact le_trans (hb012 a hm) (by omega)
    · rw [hl a hm]; omega
  exact pairwise_rank_append 4 hb0123 hsim p0123 psim

/-- C2: for every sandbox network, leak selection and simulation result, the
draw list built by buildFigData is ordered by layer rank: pipe primitives
come before the nodes trace, which comes before the sensors trace, the
placed-leak markers, the heatmap points, the prediction markers, and the
error-indicator lines, in that relative order whenever both members of a
pair appear. -/
theorem buildFigData_layer_order (network : SbNetwork) (selectedLeaks : List String)
    (sim : Option (List SimPred)) :
    (buildFigData network selectedLeaks sim).Pairwise
      (fun a b => layerRank a ≤ layerRank b) := by
  have hpipes : ∀ a ∈ network.pipes.filterMap (pipePrim network.nodes selectedLeaks),
      layerRank a = 0 := by
    intro a ha
    obtain ⟨p, _, hp⟩ := List.mem_filterMap.mp ha
    exact pipePrim_rank network.nodes selectedLeaks p a hp
  have hleak : ∀ a ∈ (if 0 < selectedLeaks.length then
      [Prim.leakTrace ((selectedLeaks.filterMap (leakCoord network)).map Prod.fst)
        ((selectedLeaks.filterMap (leakCoord network)).map Prod.snd)] else []),
      layerRank a = 3 := by
    intro a ha
    by_cases hc : 0 < selectedLeaks.length
    · rw [if_pos hc] at ha
      rw [List.mem_singleton.mp ha]
      rfl
    · rw [if_neg hc] at ha
      exact absurd ha (List.not_mem_nil a)
  cases sim with
  | none =>
    simp only [buildFigData]
    apply pairwise_build
    · exact hpipes
    · intro a ha
      rw [List.mem_singleton.mp ha]
      rfl
    · intro a ha
      rw [List.mem_singleton.mp ha]
      rfl
    · exact hleak
    · intro a ha
      exact absurd ha (List.not_mem_nil a)
    · exact List.Pairwise.nil
  | some preds =>
    have hheat : ∀ a ∈ preds.flatMap heatPrims, layerRank a = 4 := by
      intro a ha
      obtain ⟨p, _, hp⟩ := List.mem_flatMap.mp ha
      exact heatPrims_rank p a hp
    have hpredT : ∀ a ∈ [Prim.predTrace (preds.map SimPred.pred_x)
        (preds.map SimPred.pred_y)], layerRank a = 5 := by
      intro a ha
      rw [List.mem_singleton.mp ha]
      rfl
    have herr : ∀ a ∈ preds.map (fun p =>
        Prim.errLine p.true_x p.true_y p.pred_x p.pred_y), layerRank a = 6 := by
      intro a ha
      obtain ⟨p, _, h2⟩ := List.mem_map.mp ha
      rw [← h2]
      rfl
    simp only [buildFigData]
    apply pairwise_build
    · exact hpipes
    · intro a ha
      rw [List.mem_singleton.mp ha]
      rfl
    · intro a ha
      rw [List.mem_singleton.mp ha]
      rfl
    · exact hleak
    · intro a ha
      rcases List.mem_append.mp ha with h1 | h1
      · rcases List.mem_append.mp h1 with h2 | h2
        · rw [hheat a h2]
        · rw [hpredT a h2]; omega
      · rw [herr a h1]; omega
    · have inner : (preds.flatMap heatPrims ++ [Prim.predTrace
          (preds.map SimPred.pred_x) (preds.map SimPred.pred_y)]).Pairwise
          (fun a b => layerRank a ≤ layerRank b) :=
        pairwise_rank_append 4 (fun a ha => (hheat a ha).le)
          (fun b hb => by rw [hpredT b hb]; omega)
          (pairwise_rank_of_const hheat) (pairwise_rank_of_const hpredT)
      refine pairwise_rank_append 6 ?_ (fun b hb => (herr b hb).ge) inner
        (pairwise_rank_of_const herr)
      intro a ha
      rcases List.mem_append.mp ha with h1 | h1
      · rw [hheat a h1]; omega
      · rw [hpredT a h1]; omega
